import Mathlib

/-!
A formal model of the field-attribute resolution pipeline of
`src/validify_derive/src/fields.rs`: the structure walker (`collect_fields`),
the type resolver (`map_field_types`) and the per-field pipeline
(`collect_field_attributes`, `collect_field_info`).  Syntax nodes are
modelled shallowly: a `syn::Type` is a small tagged union carrying the token
text the library would render for it, spans are abstract identifiers, and the
`abort!`/`expect`/`unwrap` failure paths of the Rust code are made explicit
in an error monad.  The rule/modifier extractor (`collect_validations`,
`collect_modifiers` and the `types::Validator`/`types::Modifier` descriptors)
lives in source files that are not part of the excerpt; those definitions are
modelled from the specification and say so in their doc comments.
-/

set_option linter.unusedVariables false

namespace Modificate

/-- A source location as carried by syntax nodes (`proc_macro2::Span`).  Only
identity matters to the analysis: every error is reported at the span of some
offending node. -/
structure Span where
  id : Nat
deriving DecidableEq, Repr

/-- An analysis-time error: a source span plus a message, as raised by the
`abort!` macro calls in `fields.rs`. -/
structure AnalysisError where
  span : Span
  msg : String
deriving DecidableEq, Repr

/-- How a run of the pipeline can fail: an `abort!` (analysis error) or a
Rust panic (an `expect`/`unwrap` on a missing value).  Making the panic paths
explicit lets us prove they are unreachable for inputs the walker accepts. -/
inductive Failure where
  | analysis (err : AnalysisError)
  | panicked (msg : String)
deriving DecidableEq, Repr

/-- The apostrophe character that introduces a Rust lifetime token. -/
def tick : Char := Char.ofNat 39

/-- The character-list form of `str::replace(' ', "")` from the source: drop
every space character, keep everything else. -/
def despace (l : List Char) : List Char := l.filter (fun c => !(c == ' '))

/-- `str::replace(' ', "")` on strings. -/
def stripSpaces (s : String) : String := ⟨despace s.data⟩

/-- The shapes of `syn::Type` distinguished by `map_field_types`: a plain
path type (`syn::Type::Path`, carrying the rendered tokens of its `path`), a
reference (`syn::Type::Reference`, with the optional lifetime name minus its
leading apostrophe, the mutability, and the referenced type), a grouped type
(`syn::Type::Group`), and the catch-all for every other type shape, carrying
the tokens the whole type renders to. -/
inductive Ty where
  | path (tokens : String)
  | reference (lifetime : Option String) (isMut : Bool) (elem : Ty)
  | group (elem : Ty)
  | other (tokens : String)
deriving DecidableEq, Repr

/-- The text a lifetime contributes to a reference type's rendering: a space,
the apostrophe, and the lifetime name — or nothing when there is none. -/
def lifetimeTokens : Option String → String
  | some l => " " ++ String.mk [tick] ++ l
  | none => ""

/-- The text the `mut` keyword contributes to a reference type's rendering. -/
def mutTokens : Bool → String
  | true => " mut"
  | false => ""

/-- Token rendering (`ToTokens::to_tokens` followed by
`TokenStream::to_string`): leaves carry their rendered text; a reference
renders as the marker, then the lifetime and `mut` when present, then the
referenced type, space-separated; a `None`-delimited group renders as its
inner type. -/
def Ty.toTokens : Ty → String
  | .path tokens => tokens
  | .reference lifetime isMut elem =>
      "&" ++ lifetimeTokens lifetime ++ mutTokens isMut ++ " " ++ elem.toTokens
  | .group elem => elem.toTokens
  | .other tokens => tokens

/-- The per-field signature computation of `map_field_types` (the `match` on
`field.ty` at fields.rs:86-115): a path type serializes its path, a reference
serializes the referenced type and gains a leading marker exactly when an
explicit lifetime is present (the lifetime itself is dropped), a group
serializes its inner type, and any other shape serializes verbatim; all with
spaces removed. -/
def typeSignature : Ty → String
  | .path tokens => stripSpaces tokens
  | .reference lifetime _ elem =>
      let name := stripSpaces elem.toTokens
      if lifetime.isSome then "&" ++ name else name
  | .group elem => stripSpaces elem.toTokens
  | .other tokens => stripSpaces tokens

/-- Whether a type is structurally a reference (`syn::Type::Reference`). -/
def Ty.isReference : Ty → Bool
  | .reference _ _ _ => true
  | _ => false

/-- Whether a type is a reference carrying an explicit lifetime. -/
def Ty.refWithLifetime : Ty → Bool
  | .reference (some _) _ _ => true
  | _ => false

/-- The validator kinds named by the spec's rule vocabulary. -/
inductive RuleKind where
  | length
  | range
  | email
  | phone
  | regex
  | custom
  | nested
deriving DecidableEq, Repr

/-- Modelled from the spec: each rule kind's default error code, used when no
explicit `code` override is given (the `phone` kind defaults to `"phone"`,
and so on).  The concrete catalogue lives in `types.rs`, which is not part of
the excerpt. -/
def RuleKind.defaultCode : RuleKind → String
  | .length => "length"
  | .range => "range"
  | .email => "email"
  | .phone => "phone"
  | .regex => "regex"
  | .custom => "custom"
  | .nested => "nested"

/-- One field annotation as the extractor sees it: its keyword, the optional
`code` and `message` string overrides, its kind-specific parameters, and the
annotation's own source span. -/
structure Annotation where
  keyword : String
  code : Option String
  message : Option String
  params : List (String × String)
  span : Span
deriving DecidableEq, Repr

/-- One struct field (`syn::Field`): optional name, declared type, span, and
the attached annotation set. -/
structure Field where
  ident : Option String
  ty : Ty
  span : Span
  attrs : List Annotation
deriving DecidableEq, Repr

/-- The derive input's data (`syn::Data`): a struct together with its field
list (and the field list's own span, the target of the named-fields check),
or one of the non-struct forms. -/
inductive Data where
  | dataStruct (fields : List Field) (fieldsSpan : Span)
  | dataEnum
  | dataUnion
deriving DecidableEq, Repr

/-- The macro input (`syn::DeriveInput`): its span and its data. -/
structure DeriveInput where
  span : Span
  data : Data
deriving DecidableEq, Repr

/-- Modelled from the spec: the ValidationRule descriptor (the source type
`types::Validator` is not part of the excerpt): rule kind, resolved error
code, optional message override, kind-specific parameters. -/
structure Validator where
  kind : RuleKind
  code : String
  message : Option String
  params : List (String × String)
deriving DecidableEq, Repr

/-- Modelled from the spec: a modifier descriptor (`types::Modifier`, not
part of the excerpt): the modifier keyword.  Modifiers carry no error code
or message. -/
structure Modifier where
  kind : String
deriving DecidableEq, Repr

/-- The rule keyword vocabulary: maps an annotation keyword to its rule
kind. -/
def ruleKindOf : String → Option RuleKind
  | "length" => some .length
  | "range" => some .range
  | "email" => some .email
  | "phone" => some .phone
  | "regex" => some .regex
  | "custom" => some .custom
  | "nested" => some .nested
  | _ => none

/-- The modifier keyword vocabulary. -/
def modifierKeywords : List String := ["trim", "uppercase", "lowercase", "capitalize"]

def unknownAnnotationMsg : String := "unrecognized annotation"

/-- Modelled from the spec: `collect_validations` (in `validate::impl`, not
part of the excerpt).  Each annotation is parsed independently, in order: a
rule keyword yields a Validator whose code is the explicit override when
present and the kind's default otherwise; a modifier keyword is left to
`collect_modifiers`; any other keyword is a hard analysis error at that
annotation's span.  The kind-specific parameter and type-compatibility checks
of the full rule grammar are outside the modelled core (the spec stubs the
rule-parsing grammar). -/
def collect_validations (field_type : String) : List Annotation → Except Failure (List Validator)
  | [] => .ok []
  | a :: rest =>
    match ruleKindOf a.keyword with
    | some kind =>
      match collect_validations field_type rest with
      | .error e => .error e
      | .ok rs => .ok (⟨kind, a.code.getD kind.defaultCode, a.message, a.params⟩ :: rs)
    | none =>
      if a.keyword ∈ modifierKeywords then collect_validations field_type rest
      else .error (.analysis ⟨a.span, unknownAnnotationMsg⟩)

/-- Modelled from the spec: `collect_modifiers` (in `validify::impl`, not
part of the excerpt): a modifier keyword yields a Modifier, a rule keyword is
left to `collect_validations`, anything outside both vocabularies is a hard
analysis error at that annotation's span. -/
def collect_modifiers : List Annotation → Except Failure (List Modifier)
  | [] => .ok []
  | a :: rest =>
    if a.keyword ∈ modifierKeywords then
      match collect_modifiers rest with
      | .error e => .error e
      | .ok ms => .ok (⟨a.keyword⟩ :: ms)
    else
      match ruleKindOf a.keyword with
      | some _ => collect_modifiers rest
      | none => .error (.analysis ⟨a.span, unknownAnnotationMsg⟩)

/-- The message of the structural-shape `abort!` calls in `collect_fields`. -/
def structShapeMsg : String :=
  "#[derive(Validate/Validify)] can only be used on structs with named fields"

/-- The message of the ownership `abort!` in `map_field_types`. -/
def ownedDataMsg : String :=
  "Validify must be implemented for structs with owned data, if you just need validation and not modification, use Validate instead"

/-- `collect_fields` (fields.rs:128-145): a struct whose fields are all named
yields its field list in declaration order; a struct with any unnamed field
aborts at the field list's span; any non-struct input aborts at the input's
span. -/
def collect_fields (input : DeriveInput) : Except Failure (List Field) :=
  match input.data with
  | .dataStruct fields fieldsSpan =>
    if fields.any (fun field => field.ident.isNone) then
      .error (.analysis ⟨fieldsSpan, structShapeMsg⟩)
    else
      .ok fields
  | _ => .error (.analysis ⟨input.span, structShapeMsg⟩)

/-- The loop body of `map_field_types` (fields.rs:76-126): walk the fields in
order, panic on an unnamed field (the `expect`), compute each signature, and
abort at the field's span when the signature contains the reference marker
and references are not allowed; otherwise record the name-to-signature entry
(newest entry first, so lookups see the latest insertion, as with the
`HashMap`). -/
def map_field_types_loop (types : List (String × String)) (allow_refs : Bool) :
    List Field → Except Failure (List (String × String))
  | [] => .ok types
  | field :: rest =>
    match field.ident with
    | none => .error (.panicked "Found unnamed field")
    | some field_ident =>
      let field_type := typeSignature field.ty
      if field_type.data.contains '&' && !allow_refs then
        .error (.analysis ⟨field.span, ownedDataMsg⟩)
      else
        map_field_types_loop ((field_ident, field_type) :: types) allow_refs rest

/-- `map_field_types`: the name-to-signature mapping for a whole field list. -/
def map_field_types (fields : List Field) (allow_refs : Bool) :
    Except Failure (List (String × String)) :=
  map_field_types_loop [] allow_refs fields

/-- Holds the combined validations and modifiers for one field
(`FieldInformation` in fields.rs:14-21). -/
structure FieldInformation where
  field : Field
  field_type : String
  name : String
  validations : List Validator
  modifiers : List Modifier
deriving DecidableEq, Repr

/-- `collect_field_attributes` (fields.rs:149-163): unwrap the field's name,
look its signature up in the precomputed mapping (both unwraps panic when the
value is missing), then run the two extractors. -/
def collect_field_attributes (field : Field) (field_types : List (String × String)) :
    Except Failure (List Validator × List Modifier) :=
  match field.ident with
  | none => .error (.panicked "called Option::unwrap on a None value")
  | some field_ident =>
    match field_types.lookup field_ident with
    | none => .error (.panicked "called Option::unwrap on a None value")
    | some field_type =>
      match collect_validations field_type field.attrs with
      | .error e => .error e
      | .ok validators =>
        match collect_modifiers field.attrs with
        | .error e => .error e
        | .ok modifiers => .ok (validators, modifiers)

/-- The per-field loop of `collect_field_info` (fields.rs:52-68): for each
field in order, read its name (the `expect`), collect its attributes, look up
its signature (the `unwrap`), and assemble one `FieldInformation`. -/
def collect_field_info_loop (field_types : List (String × String)) :
    List Field → Except Failure (List FieldInformation)
  | [] => .ok []
  | field :: rest =>
    match field.ident with
    | none => .error (.panicked "Found unnamed field")
    | some field_ident =>
      match collect_field_attributes field field_types with
      | .error e => .error e
      | .ok (validations, modifiers) =>
        match field_types.lookup field_ident with
        | none => .error (.panicked "called Option::unwrap on a None value")
        | some field_type =>
          match collect_field_info_loop field_types rest with
          | .error e => .error e
          | .ok rest_infos =>
            .ok (⟨field, field_type, field_ident, validations, modifiers⟩ :: rest_infos)

/-- `collect_field_info` (fields.rs:42-71): collect the fields, batch-resolve
the types, then assemble one `FieldInformation` per field in declaration
order. -/
def collect_field_info (input : DeriveInput) (allow_refs : Bool) :
    Except Failure (List FieldInformation) :=
  match collect_fields input with
  | .error e => .error e
  | .ok fields =>
    match map_field_types fields allow_refs with
    | .error e => .error e
    | .ok field_types => collect_field_info_loop field_types fields

/-- The name-to-signature entry `map_field_types` records for a field. -/
def entryOf (f : Field) : String × String := (f.ident.getD "", typeSignature f.ty)

/-- The descriptor an annotation-free field assembles to. -/
def infoOf (f : Field) : FieldInformation :=
  ⟨f, typeSignature f.ty, f.ident.getD "", [], []⟩

/-- Renders a fixed token sequence with a chosen amount of spacing after each
token: two renderings of the same sequence are exactly "the same type
expression written with different spacing". -/
def renderWith : List String → List Nat → String
  | [], _ => ""
  | t :: ts, [] => t ++ renderWith ts []
  | t :: ts, g :: gs => t ++ String.mk (List.replicate g ' ') ++ renderWith ts gs

/-- Two type expressions that differ only in the spacing of their rendered
tokens: leaves render one token sequence with two spacings, and the
structured shapes agree componentwise. -/
inductive TySpacing : Ty → Ty → Prop
  | path (ts : List String) (gs₁ gs₂ : List Nat) :
      TySpacing (.path (renderWith ts gs₁)) (.path (renderWith ts gs₂))
  | reference (lifetime : Option String) (isMut : Bool) {e₁ e₂ : Ty} :
      TySpacing e₁ e₂ → TySpacing (.reference lifetime isMut e₁) (.reference lifetime isMut e₂)
  | group {e₁ e₂ : Ty} : TySpacing e₁ e₂ → TySpacing (.group e₁) (.group e₂)
  | other (ts : List String) (gs₁ gs₂ : List Nat) :
      TySpacing (.other (renderWith ts gs₁)) (.other (renderWith ts gs₂))

/-- The only whitespace in a string is the plain space character.  Token
streams rendered by the tokenizer satisfy this: their inter-token separator
is a single space and no token carries a tab or newline. -/
def spaceOnlyWS (s : String) : Bool := s.data.all (fun c => !c.isWhitespace || c == ' ')

/-- Every token string inside a type expression has only plain spaces as
whitespace. -/
def Ty.wsOnly : Ty → Bool
  | .path tokens => spaceOnlyWS tokens
  | .reference lifetime _ elem => spaceOnlyWS (lifetimeTokens lifetime) && elem.wsOnly
  | .group elem => elem.wsOnly
  | .other tokens => spaceOnlyWS tokens

/-! ### Concrete inputs used by witnesses and counterexamples -/

/-- A field declared `x: &String` — a reference type with no explicit
lifetime. -/
def refNoLifetimeField : Field :=
  { ident := some "x", ty := .reference none false (.path "String"), span := ⟨2⟩, attrs := [] }

/-- A one-field struct whose only field is `x: &String`. -/
def refNoLifetimeInput : DeriveInput :=
  { span := ⟨0⟩, data := .dataStruct [refNoLifetimeField] ⟨1⟩ }

/-- A field declared `y: &'a String` — a reference type with an explicit
lifetime. -/
def refLifetimeField : Field :=
  { ident := some "y", ty := .reference (some "a") false (.path "String"), span := ⟨5⟩, attrs := [] }

/-- A one-field struct whose only field is `y: &'a String`. -/
def refLifetimeInput : DeriveInput :=
  { span := ⟨3⟩, data := .dataStruct [refLifetimeField] ⟨4⟩ }

/-- A non-struct derive input (an enum). -/
def enumInput : DeriveInput := { span := ⟨6⟩, data := .dataEnum }

/-- An unnamed, tuple-style field of type `u32`. -/
def tupleField : Field := { ident := none, ty := .path "u32", span := ⟨8⟩, attrs := [] }

/-- A tuple struct: one unnamed field. -/
def tupleInput : DeriveInput :=
  { span := ⟨7⟩, data := .dataStruct [tupleField] ⟨9⟩ }

/-- A named field whose declared type is a bare function pointer taking a
reference — not structurally a reference type, but its serialization mentions
the reference marker. -/
def fnPtrField : Field :=
  { ident := some "cb", ty := .other "fn ( & str )", span := ⟨10⟩, attrs := [] }

/-- A plain owned field `val: String`. -/
def ownedField : Field :=
  { ident := some "val", ty := .path "String", span := ⟨11⟩, attrs := [] }

/-- A two-field struct `{ val: String, cb: fn(&str) }`. -/
def fnPtrInput : DeriveInput :=
  { span := ⟨12⟩, data := .dataStruct [ownedField, fnPtrField] ⟨13⟩ }

/-- A plain named field `a: String` with no annotations. -/
def plainFieldA : Field :=
  { ident := some "a", ty := .path "String", span := ⟨14⟩, attrs := [] }

/-- A plain named field `b: Vec<u8>` with no annotations. -/
def plainFieldB : Field :=
  { ident := some "b", ty := .path "Vec < u8 >", span := ⟨15⟩, attrs := [] }

/-- A two-field annotation-free struct `{ a: String, b: Vec<u8> }`. -/
def plainInput : DeriveInput :=
  { span := ⟨16⟩, data := .dataStruct [plainFieldA, plainFieldB] ⟨17⟩ }

/-! ### Association-list lookup facts -/

lemma lookup_cons_self (k v : String) (l : List (String × String)) :
    ((k, v) :: l).lookup k = some v := by
  simp [List.lookup]

lemma lookup_cons_ne (k k' v : String) (l : List (String × String)) (h : k ≠ k') :
    ((k', v) :: l).lookup k = l.lookup k := by
  have hb : (k == k') = false := beq_eq_false_iff_ne.mpr h
  simp [List.lookup, hb]

lemma lookup_isSome_of_mem {l : List (String × String)} {k v : String}
    (h : (k, v) ∈ l) : ∃ w, l.lookup k = some w := by
  induction l with
  | nil => cases h
  | cons p rest ih =>
    by_cases hk : k = p.1
    · subst hk
      exact ⟨p.2, by simp [List.lookup]⟩
    · rcases List.mem_cons.mp h with h | h
      · exact absurd (congrArg Prod.fst h) hk
      · rcases ih h with ⟨w, hw⟩
        exact ⟨w, by rw [show p = (p.1, p.2) from rfl, lookup_cons_ne _ _ _ _ hk]; exact hw⟩

lemma lookup_eq_of_mem_of_nodup {l : List (String × String)} {k v : String}
    (hmem : (k, v) ∈ l) (hnd : (l.map Prod.fst).Nodup) : l.lookup k = some v := by
  induction l with
  | nil => cases hmem
  | cons p rest ih =>
    rcases List.mem_cons.mp hmem with h | h
    · subst h
      exact lookup_cons_self _ _ _
    · have hne : k ≠ p.1 := by
        intro hk
        have hkm : k ∈ rest.map Prod.fst := List.mem_map.mpr ⟨(k, v), h, rfl⟩
        rw [hk] at hkm
        exact (List.nodup_cons.mp (by simpa using hnd)).1 hkm
      rw [show p = (p.1, p.2) from rfl, lookup_cons_ne _ _ _ _ hne]
      exact ih h (List.nodup_cons.mp (by simpa using hnd)).2

/-! ### Structure walker facts -/

lemma collect_fields_ok (input : DeriveInput) (fields : List Field) (fsp : Span)
    (hdata : input.data = .dataStruct fields fsp)
    (hnamed : ∀ f ∈ fields, f.ident.isSome = true) :
    collect_fields input = .ok fields := by
  have hany : fields.any (fun field => field.ident.isNone) = false := by
    rw [List.any_eq_false]
    intro f hf
    simp [Option.isNone_iff_eq_none]
    intro hnone
    have := hnamed f hf
    rw [hnone] at this
    simp at this
  simp [collect_fields, hdata, hany]

lemma isSome_of_isNone_false {α : Type} {o : Option α} (h : o.isNone = false) :
    o.isSome = true := by
  cases o <;> simp_all

lemma collect_fields_ok_inv {input : DeriveInput} {fields : List Field}
    (h : collect_fields input = .ok fields) :
    (∀ f ∈ fields, f.ident.isSome = true) ∧ ∃ fsp, input.data = .dataStruct fields fsp := by
  rcases hd : input.data with ⟨fs, fsp⟩ | _ | _
  · simp only [collect_fields, hd] at h
    by_cases hany : fs.any (fun field => field.ident.isNone) = true
    · rw [if_pos hany] at h
      cases h
    · rw [if_neg hany] at h
      cases h
      refine ⟨?_, fsp, rfl⟩
      rw [Bool.not_eq_true, List.any_eq_false] at hany
      intro f hf
      have := hany f hf
      exact isSome_of_isNone_false (Bool.eq_false_iff.mpr this)
  · simp only [collect_fields, hd] at h
    exact Except.noConfusion h
  · simp only [collect_fields, hd] at h
    exact Except.noConfusion h

/-! ### Type resolver facts -/

lemma mfl_ok (fields : List Field) (types : List (String × String)) (allow_refs : Bool)
    (hnamed : ∀ f ∈ fields, f.ident.isSome = true)
    (hpass : ∀ f ∈ fields,
      (typeSignature f.ty).data.contains '&' = false ∨ allow_refs = true) :
    map_field_types_loop types allow_refs fields =
      .ok ((fields.map entryOf).reverse ++ types) := by
  induction fields generalizing types with
  | nil => simp [map_field_types_loop]
  | cons field rest ih =>
    rcases Option.isSome_iff_exists.mp (hnamed field (List.mem_cons_self _ _)) with ⟨n, hn⟩
    have hcond : ((typeSignature field.ty).data.contains '&' && !allow_refs) = false := by
      rcases hpass field (List.mem_cons_self _ _) with h | h
      · rw [h, Bool.false_and]
      · rw [h, Bool.not_true, Bool.and_false]
    simp only [map_field_types_loop, hn, hcond, Bool.false_eq_true, if_false]
    rw [ih ((n, typeSignature field.ty) :: types)
      (fun f hf => hnamed f (List.mem_cons_of_mem _ hf))
      (fun f hf => hpass f (List.mem_cons_of_mem _ hf))]
    have hent : entryOf field = (n, typeSignature field.ty) := by
      simp [entryOf, hn]
    simp [hent, List.reverse_cons, List.append_assoc]

lemma mfl_err (fields : List Field) (types : List (String × String)) (g : Field)
    (hnamed : ∀ f ∈ fields, f.ident.isSome = true)
    (hfind : fields.find? (fun f => (typeSignature f.ty).data.contains '&') = some g) :
    map_field_types_loop types false fields = .error (.analysis ⟨g.span, ownedDataMsg⟩) := by
  induction fields generalizing types with
  | nil => cases hfind
  | cons field rest ih =>
    rcases Option.isSome_iff_exists.mp (hnamed field (List.mem_cons_self _ _)) with ⟨n, hn⟩
    by_cases hc : (typeSignature field.ty).data.contains '&' = true
    · rw [List.find?_cons] at hfind
      simp only [hc, if_true] at hfind
      cases hfind
      simp only [map_field_types_loop, hn, hc, Bool.not_false, Bool.and_true, if_true]
    · have hc' : (typeSignature field.ty).data.contains '&' = false :=
        Bool.eq_false_iff.mpr hc
      rw [List.find?_cons] at hfind
      simp only [hc', Bool.false_eq_true, if_false] at hfind
      simp only [map_field_types_loop, hn, hc', Bool.false_and, Bool.false_eq_true, if_false]
      exact ih _ (fun f hf => hnamed f (List.mem_cons_of_mem _ hf)) hfind

lemma mfl_error_shape {fields : List Field} {types : List (String × String)}
    {allow_refs : Bool} {e : Failure}
    (hnamed : ∀ f ∈ fields, f.ident.isSome = true)
    (h : map_field_types_loop types allow_refs fields = .error e) :
    allow_refs = false ∧ ∃ f ∈ fields, e = .analysis ⟨f.span, ownedDataMsg⟩ ∧
      (typeSignature f.ty).data.contains '&' = true := by
  induction fields generalizing types with
  | nil =>
    rw [map_field_types_loop] at h
    exact Except.noConfusion h
  | cons field rest ih =>
    rcases Option.isSome_iff_exists.mp (hnamed field (List.mem_cons_self _ _)) with ⟨n, hn⟩
    by_cases hcond : ((typeSignature field.ty).data.contains '&' && !allow_refs) = true
    · rw [map_field_types_loop] at h
      rw [hn] at h
      simp only [hcond, if_true] at h
      cases h
      have hc := Bool.and_elim_left hcond
      have hr := Bool.and_elim_right hcond
      exact ⟨by simpa using hr, field, List.mem_cons_self _ _, rfl, hc⟩
    · rw [map_field_types_loop] at h
      rw [hn] at h
      simp only [hcond, if_false] at h
      rcases ih (fun f hf => hnamed f (List.mem_cons_of_mem _ hf)) h with ⟨hr, f, hf, he, hc⟩
      exact ⟨hr, f, List.mem_cons_of_mem _ hf, he, hc⟩

lemma mfl_preserves {fields : List Field} {types m : List (String × String)}
    {allow_refs : Bool}
    (h : map_field_types_loop types allow_refs fields = .ok m) :
    (∀ k v, types.lookup k = some v → ∃ w, m.lookup k = some w) ∧
    (∀ f ∈ fields, ∀ n, f.ident = some n → ∃ w, m.lookup n = some w) := by
  induction fields generalizing types with
  | nil =>
    rw [map_field_types_loop] at h
    cases h
    exact ⟨fun k v hk => ⟨v, hk⟩, fun f hf => absurd hf (List.not_mem_nil _)⟩
  | cons field rest ih =>
    rw [map_field_types_loop] at h
    rcases hid : field.ident with _ | n
    · rw [hid] at h
      exact Except.noConfusion h
    · rw [hid] at h
      by_cases hcond : ((typeSignature field.ty).data.contains '&' && !allow_refs) = true
      · simp only [hcond, if_true] at h
        exact Except.noConfusion h
      · simp only [hcond, if_false] at h
        rcases ih h with ⟨hpres, hflds⟩
        have hstep : ∀ k v, types.lookup k = some v → ∃ w, m.lookup k = some w := by
          intro k v hk
          by_cases hkn : k = n
          · subst hkn
            exact hpres k (typeSignature field.ty) (lookup_cons_self _ _ _)
          · exact hpres k v (by rw [lookup_cons_ne _ _ _ _ hkn]; exact hk)
        refine ⟨hstep, ?_⟩
        intro f hf n' hn'
        rcases List.mem_cons.mp hf with heq | hf
        · rw [heq, hid] at hn'
          injection hn' with hnn
          subst hnn
          exact hpres n (typeSignature field.ty) (lookup_cons_self _ _ _)
        · exact hflds f hf n' hn'

/-! ### Extractor and pipeline facts -/

lemma cv_error_analysis {field_type : String} {attrs : List Annotation} {e : Failure}
    (h : collect_validations field_type attrs = .error e) :
    ∃ a ∈ attrs, e = .analysis ⟨a.span, unknownAnnotationMsg⟩ := by
  induction attrs with
  | nil =>
    rw [collect_validations] at h
    exact Except.noConfusion h
  | cons a rest ih =>
    rw [collect_validations] at h
    rcases hk : ruleKindOf a.keyword with _ | kind
    · rw [hk] at h
      by_cases hm : a.keyword ∈ modifierKeywords
      · rw [if_pos hm] at h
        rcases ih h with ⟨b, hb, he⟩
        exact ⟨b, List.mem_cons_of_mem _ hb, he⟩
      · rw [if_neg hm] at h
        cases h
        exact ⟨a, List.mem_cons_self _ _, rfl⟩
    · rw [hk] at h
      rcases hrest : collect_validations field_type rest with e' | rs
      · rw [hrest] at h
        cases h
        rcases ih hrest with ⟨b, hb, he⟩
        exact ⟨b, List.mem_cons_of_mem _ hb, he⟩
      · rw [hrest] at h
        exact Except.noConfusion h

lemma cm_error_analysis {attrs : List Annotation} {e : Failure}
    (h : collect_modifiers attrs = .error e) :
    ∃ a ∈ attrs, e = .analysis ⟨a.span, unknownAnnotationMsg⟩ := by
  induction attrs with
  | nil =>
    rw [collect_modifiers] at h
    exact Except.noConfusion h
  | cons a rest ih =>
    rw [collect_modifiers] at h
    by_cases hm : a.keyword ∈ modifierKeywords
    · rw [if_pos hm] at h
      rcases hrest : collect_modifiers rest with e' | ms
      · rw [hrest] at h
        cases h
        rcases ih hrest with ⟨b, hb, he⟩
        exact ⟨b, List.mem_cons_of_mem _ hb, he⟩
      · rw [hrest] at h
        exact Except.noConfusion h
    · rw [if_neg hm] at h
      rcases hk : ruleKindOf a.keyword with _ | kind
      · rw [hk] at h
        cases h
        exact ⟨a, List.mem_cons_self _ _, rfl⟩
      · rw [hk] at h
        rcases ih h with ⟨b, hb, he⟩
        exact ⟨b, List.mem_cons_of_mem _ hb, he⟩

lemma cfa_no_panic {field : Field} {field_types : List (String × String)} {msg : String}
    (hname : field.ident.isSome = true)
    (hlk : ∀ n, field.ident = some n → ∃ w, field_types.lookup n = some w) :
    collect_field_attributes field field_types ≠ .error (.panicked msg) := by
  rcases Option.isSome_iff_exists.mp hname with ⟨n, hn⟩
  rcases hlk n hn with ⟨w, hw⟩
  intro h
  simp only [collect_field_attributes, hn, hw] at h
  rcases hv : collect_validations w field.attrs with e | validators
  · simp only [hv] at h
    cases h
    rcases cv_error_analysis hv with ⟨a, _, he⟩
    exact Failure.noConfusion he
  · simp only [hv] at h
    rcases hm : collect_modifiers field.attrs with e | modifiers
    · simp only [hm] at h
      cases h
      rcases cm_error_analysis hm with ⟨a, _, he⟩
      exact Failure.noConfusion he
    · simp only [hm] at h
      exact Except.noConfusion h

lemma cfi_loop_no_panic {field_types : List (String × String)} {fields : List Field}
    {msg : String}
    (hnamed : ∀ f ∈ fields, f.ident.isSome = true)
    (hlk : ∀ f ∈ fields, ∀ n, f.ident = some n → ∃ w, field_types.lookup n = some w) :
    collect_field_info_loop field_types fields ≠ .error (.panicked msg) := by
  induction fields with
  | nil =>
    rw [collect_field_info_loop]
    intro h
    exact Except.noConfusion h
  | cons field rest ih =>
    rcases Option.isSome_iff_exists.mp (hnamed field (List.mem_cons_self _ _)) with ⟨n, hn⟩
    rcases hlk field (List.mem_cons_self _ _) n hn with ⟨w, hw⟩
    intro h
    simp only [collect_field_info_loop, hn] at h
    rcases hcfa : collect_field_attributes field field_types with e | vm
    · simp only [hcfa] at h
      cases h
      exact cfa_no_panic (by rw [hn]; rfl) (hlk field (List.mem_cons_self _ _)) hcfa
    · simp only [hcfa] at h
      rcases vm with ⟨validations, modifiers⟩
      simp only [hw] at h
      rcases hrest : collect_field_info_loop field_types rest with e | infos
      · simp only [hrest] at h
        cases h
        exact ih (fun f hf => hnamed f (List.mem_cons_of_mem _ hf))
          (fun f hf => hlk f (List.mem_cons_of_mem _ hf)) hrest
      · simp only [hrest] at h
        exact Except.noConfusion h

lemma cfi_loop_fields {field_types : List (String × String)} {fields : List Field}
    {infos : List FieldInformation}
    (h : collect_field_info_loop field_types fields = .ok infos) :
    infos.map FieldInformation.field = fields := by
  induction fields generalizing infos with
  | nil =>
    rw [collect_field_info_loop] at h
    cases h
    rfl
  | cons field rest ih =>
    rw [collect_field_info_loop] at h
    rcases hn : field.ident with _ | n
    · simp only [hn] at h
      exact Except.noConfusion h
    · simp only [hn] at h
      rcases hcfa : collect_field_attributes field field_types with e | vm
      · simp only [hcfa] at h
        exact Except.noConfusion h
      · simp only [hcfa] at h
        rcases vm with ⟨validations, modifiers⟩
        rcases hw : field_types.lookup n with _ | w
        · simp only [hw] at h
          exact Except.noConfusion h
        · simp only [hw] at h
          rcases hrest : collect_field_info_loop field_types rest with e | rest_infos
          · simp only [hrest] at h
            exact Except.noConfusion h
          · simp only [hrest] at h
            cases h
            simp [ih hrest]

lemma cfi_loop_empty_attrs {field_types : List (String × String)} {fields : List Field}
    (hnamed : ∀ f ∈ fields, f.ident.isSome = true)
    (hattrs : ∀ f ∈ fields, f.attrs = [])
    (hlk : ∀ f ∈ fields, field_types.lookup (f.ident.getD "") = some (typeSignature f.ty)) :
    collect_field_info_loop field_types fields = .ok (fields.map infoOf) := by
  induction fields with
  | nil => rw [collect_field_info_loop]; rfl
  | cons field rest ih =>
    rcases Option.isSome_iff_exists.mp (hnamed field (List.mem_cons_self _ _)) with ⟨n, hn⟩
    have hget : field.ident.getD "" = n := by rw [hn]; rfl
    have hw : field_types.lookup n = some (typeSignature field.ty) := by
      rw [← hget]
      exact hlk field (List.mem_cons_self _ _)
    have hcfa : collect_field_attributes field field_types = .ok ([], []) := by
      simp only [collect_field_attributes, hn, hw, hattrs field (List.mem_cons_self _ _)]
      rfl
    have hih := ih (fun f hf => hnamed f (List.mem_cons_of_mem _ hf))
      (fun f hf => hattrs f (List.mem_cons_of_mem _ hf))
      (fun f hf => hlk f (List.mem_cons_of_mem _ hf))
    simp only [collect_field_info_loop, hn, hcfa, hw, hih]
    have hinfo : infoOf field = ⟨field, typeSignature field.ty, n, [], []⟩ := by
      rw [infoOf, hget]
    simp [hinfo]

/-! ### Spacing and whitespace facts -/

lemma despace_append (l₁ l₂ : List Char) :
    despace (l₁ ++ l₂) = despace l₁ ++ despace l₂ := by
  simp [despace, List.filter_append]

lemma despace_replicate (g : Nat) : despace (List.replicate g ' ') = [] := by
  induction g with
  | zero => rfl
  | succ g ih => simp [List.replicate, despace] at ih ⊢

lemma data_append (s t : String) : (s ++ t).data = s.data ++ t.data := rfl

lemma despace_render (ts : List String) (gs : List Nat) :
    despace (renderWith ts gs).data = despace ((ts.map String.data).flatten) := by
  induction ts generalizing gs with
  | nil => cases gs <;> rfl
  | cons t rest ih =>
    cases gs with
    | nil =>
      rw [renderWith, data_append, despace_append, ih []]
      simp [despace_append]
    | cons g gs =>
      rw [renderWith, data_append, data_append, despace_append, despace_append]
      have : (String.mk (List.replicate g ' ')).data = List.replicate g ' ' := rfl
      rw [this, despace_replicate, List.append_nil, ih gs]
      simp [despace_append]

lemma strip_render (ts : List String) (gs₁ gs₂ : List Nat) :
    stripSpaces (renderWith ts gs₁) = stripSpaces (renderWith ts gs₂) := by
  rw [stripSpaces, stripSpaces, despace_render, despace_render]

lemma tySpacing_toTokens {t₁ t₂ : Ty} (h : TySpacing t₁ t₂) :
    despace t₁.toTokens.data = despace t₂.toTokens.data := by
  induction h with
  | path ts gs₁ gs₂ =>
    rw [Ty.toTokens, Ty.toTokens, despace_render, despace_render]
  | reference lifetime isMut h ih =>
    simp only [Ty.toTokens, data_append, despace_append, ih]
  | group h ih =>
    rw [Ty.toTokens, Ty.toTokens]
    exact ih
  | other ts gs₁ gs₂ =>
    rw [Ty.toTokens, Ty.toTokens, despace_render, despace_render]

lemma stripSpaces_eq_of_despace_eq {s t : String}
    (h : despace s.data = despace t.data) : stripSpaces s = stripSpaces t := by
  rw [stripSpaces, stripSpaces, h]

lemma tySpacing_signature {t₁ t₂ : Ty} (h : TySpacing t₁ t₂) :
    typeSignature t₁ = typeSignature t₂ := by
  cases h with
  | path ts gs₁ gs₂ =>
    rw [typeSignature, typeSignature]
    exact strip_render ts gs₁ gs₂
  | reference lifetime isMut h =>
    rw [typeSignature, typeSignature]
    rw [stripSpaces_eq_of_despace_eq (tySpacing_toTokens h)]
  | group h =>
    rw [typeSignature, typeSignature]
    exact stripSpaces_eq_of_despace_eq (tySpacing_toTokens h)
  | other ts gs₁ gs₂ =>
    rw [typeSignature, typeSignature]
    exact strip_render ts gs₁ gs₂

lemma mem_despace_no_space {l : List Char} {c : Char} (h : c ∈ despace l) :
    c ∈ l ∧ (c == ' ') = false := by
  rw [despace, List.mem_filter] at h
  exact ⟨h.1, by simpa using h.2⟩

lemma spaceOnlyWS_append (s t : String) :
    spaceOnlyWS (s ++ t) = (spaceOnlyWS s && spaceOnlyWS t) := by
  rw [spaceOnlyWS, spaceOnlyWS, spaceOnlyWS, data_append, List.all_append]

lemma wsOnly_toTokens {t : Ty} (h : t.wsOnly = true) : spaceOnlyWS t.toTokens = true := by
  induction t with
  | path tokens => exact h
  | reference lifetime isMut elem ih =>
    simp only [Ty.wsOnly] at h
    have hlt := Bool.and_elim_left h
    have helem := ih (Bool.and_elim_right h)
    have hmut : spaceOnlyWS (mutTokens isMut) = true := by
      cases isMut <;> decide
    simp only [Ty.toTokens, spaceOnlyWS_append, hlt, hmut, helem]
    decide
  | group elem ih =>
    rw [Ty.toTokens]
    exact ih h
  | other tokens => exact h

lemma stripSpaces_no_ws {s : String} (h : spaceOnlyWS s = true) :
    ∀ c ∈ (stripSpaces s).data, c.isWhitespace = false := by
  intro c hc
  rw [stripSpaces] at hc
  rcases mem_despace_no_space hc with ⟨hmem, hne⟩
  rw [spaceOnlyWS, List.all_eq_true] at h
  have := h c hmem
  rcases Bool.or_eq_true_iff.mp this with hw | hsp
  · simpa using hw
  · rw [hsp] at hne
    cases hne

lemma signature_no_ws {t : Ty} (h : t.wsOnly = true) :
    ∀ c ∈ (typeSignature t).data, c.isWhitespace = false := by
  cases t with
  | path tokens =>
    rw [typeSignature]
    exact stripSpaces_no_ws h
  | reference lifetime isMut elem =>
    have helem : spaceOnlyWS elem.toTokens = true := by
      simp only [Ty.wsOnly] at h
      exact wsOnly_toTokens (Bool.and_elim_right h)
    rw [typeSignature]
    cases lifetime with
    | none =>
      simpa using stripSpaces_no_ws helem
    | some l =>
      simp only [Option.isSome_some, if_true]
      intro c hc
      rw [data_append] at hc
      rcases List.mem_append.mp hc with hc | hc
      · rcases List.mem_singleton.mp hc with rfl
        decide
      · exact stripSpaces_no_ws helem c hc
  | group elem =>
    rw [typeSignature]
    exact stripSpaces_no_ws (wsOnly_toTokens h)
  | other tokens =>
    rw [typeSignature]
    exact stripSpaces_no_ws h

lemma stripSpaces_of_no_space {s : String}
    (h : ∀ c ∈ s.data, c.isWhitespace = false) : stripSpaces s = s := by
  have : despace s.data = s.data := by
    rw [despace]
    apply List.filter_eq_self.mpr
    intro c hc
    have hw := h c hc
    have : ¬ c = ' ' := by
      intro hsp
      rw [hsp] at hw
      cases hw
    simpa using this
  rw [stripSpaces, this]

lemma contains_of_amp_prepend (s : String) : ("&" ++ s).data.contains '&' = true := by
  rw [data_append]
  simp

lemma refWithLifetime_signature {t : Ty} (h : t.refWithLifetime = true) :
    ∃ s, typeSignature t = "&" ++ s := by
  cases t with
  | path tokens => cases h
  | reference lifetime isMut elem =>
    cases lifetime with
    | none => cases h
    | some l =>
      exact ⟨stripSpaces elem.toTokens, by simp [typeSignature]⟩
  | group elem => cases h
  | other tokens => cases h

lemma refWithLifetime_contains {t : Ty} (h : t.refWithLifetime = true) :
    (typeSignature t).data.contains '&' = true := by
  rcases refWithLifetime_signature h with ⟨s, hs⟩
  rw [hs]
  exact contains_of_amp_prepend s

/-! ### Claims -/

/-- C3: for every non-struct input, the analysis raises an immediate
structural-shape error at the input's span; for every struct containing an
unnamed (tuple-style) field, it raises one at the field list's span.  In both
cases the result is the error alone — no field descriptors are returned. -/
theorem C3_structural_shape_error (input : DeriveInput) (allow_refs : Bool) :
    ((∀ fields fsp, input.data ≠ .dataStruct fields fsp) →
      collect_field_info input allow_refs = .error (.analysis ⟨input.span, structShapeMsg⟩)) ∧
    (∀ fields fsp, input.data = .dataStruct fields fsp →
      (∃ f ∈ fields, f.ident = none) →
      collect_field_info input allow_refs = .error (.analysis ⟨fsp, structShapeMsg⟩)) := by
  constructor
  · intro hns
    have hcf : collect_fields input = .error (.analysis ⟨input.span, structShapeMsg⟩) := by
      rcases hd : input.data with ⟨fs, fsp⟩ | _ | _
      · exact absurd hd (hns fs fsp)
      · simp [collect_fields, hd]
      · simp [collect_fields, hd]
    simp [collect_field_info, hcf]
  · intro fields fsp hdata hex
    have hany : fields.any (fun field => field.ident.isNone) = true := by
      rw [List.any_eq_true]
      rcases hex with ⟨f, hf, hnone⟩
      exact ⟨f, hf, by simp [hnone]⟩
    have hcf : collect_fields input = .error (.analysis ⟨fsp, structShapeMsg⟩) := by
      simp [collect_fields, hdata, hany]
    simp [collect_field_info, hcf]

/-- Witness for C3: the enum input errors at the input's span, and the tuple
struct errors at its field list's span. -/
theorem C3_witness :
    collect_field_info enumInput false = .error (.analysis ⟨⟨6⟩, structShapeMsg⟩) ∧
    collect_field_info tupleInput false = .error (.analysis ⟨⟨9⟩, structShapeMsg⟩) :=
  ⟨(C3_structural_shape_error enumInput false).1 (fun fields fsp h => Data.noConfusion h),
   (C3_structural_shape_error tupleInput false).2 [tupleField] ⟨9⟩ rfl
     ⟨tupleField, List.mem_cons_self _ _, rfl⟩⟩

/-- C4: the signature of a reference type is the space-stripped serialization
of the referenced (inner) type, prefixed with the marker character exactly
when the reference carries an explicit lifetime; the lifetime itself does not
appear in the signature. -/
theorem C4_reference_signature (lifetime : Option String) (isMut : Bool) (elem : Ty) :
    typeSignature (.reference lifetime isMut elem) =
      (if lifetime.isSome then "&" else "") ++ stripSpaces elem.toTokens := by
  cases lifetime with
  | none => simp [typeSignature]
  | some l => simp [typeSignature]

/-- C5: type resolution is total — every unrecognized type shape still gets a
signature through the fallback verbatim-serialization branch — and the only
error `map_field_types` raises is the ownership rejection: an analysis error
at an offending field's span, only under `allow_refs = false`, and only for a
field whose signature contains the reference marker. -/
theorem C5_resolver_total_single_error (fields : List Field) (allow_refs : Bool)
    (hnamed : ∀ f ∈ fields, f.ident.isSome = true) :
    (∀ tokens, typeSignature (.other tokens) = stripSpaces tokens) ∧
    (∀ e, map_field_types fields allow_refs = .error e →
      allow_refs = false ∧ ∃ f ∈ fields, e = .analysis ⟨f.span, ownedDataMsg⟩ ∧
        (typeSignature f.ty).data.contains '&' = true) := by
  refine ⟨fun tokens => rfl, fun e h => ?_⟩
  rw [map_field_types] at h
  exact mfl_error_shape hnamed h

/-- Witness for C5: the fallback branch yields a signature for a bare
function-pointer type shape. -/
theorem C5_witness :
    typeSignature (Ty.other "fn ( & str )") = stripSpaces "fn ( & str )" :=
  (C5_resolver_total_single_error [] true
    (fun f hf => absurd hf (List.not_mem_nil f))).1 "fn ( & str )"

/-- Counterexample to C1 as stated: `x: &String` is declared with a reference
type, but with no explicit lifetime its signature is just the inner type's
text, so analysis under `allow_refs = false` succeeds at that field instead
of failing with an ownership error. -/
theorem C1_counterexample :
    refNoLifetimeField.ty.isReference = true ∧
    collect_field_info refNoLifetimeInput false =
      .ok [⟨refNoLifetimeField, "String", "x", [], []⟩] := by
  constructor
  · rfl
  · rfl

/-- C1 (amended): for every struct whose fields are all named, if some field's
declared type is a reference carrying an explicit lifetime then analysis under
`allow_refs = false` fails with the ownership error, located at the first
field whose signature contains the reference marker; and under
`allow_refs = true` the type resolver raises no ownership error. -/
theorem C1_reference_ownership_amended (input : DeriveInput) (fields : List Field)
    (fsp : Span)
    (hdata : input.data = .dataStruct fields fsp)
    (hnamed : ∀ f ∈ fields, f.ident.isSome = true)
    (hex : ∃ f ∈ fields, f.ty.refWithLifetime = true) :
    (∃ g, fields.find? (fun f => (typeSignature f.ty).data.contains '&') = some g ∧
      collect_field_info input false = .error (.analysis ⟨g.span, ownedDataMsg⟩)) ∧
    (∃ m, map_field_types fields true = .ok m) := by
  constructor
  · rcases hex with ⟨f, hf, href⟩
    have hcont := refWithLifetime_contains href
    have hfind : ∃ g, fields.find?
        (fun f => (typeSignature f.ty).data.contains '&') = some g := by
      rcases hfind' : fields.find? (fun f => (typeSignature f.ty).data.contains '&')
          with _ | g
      · rw [List.find?_eq_none] at hfind'
        exact absurd hcont (by simpa using hfind' f hf)
      · exact ⟨g, hfind'⟩
    rcases hfind with ⟨g, hg⟩
    refine ⟨g, hg, ?_⟩
    have hcf : collect_fields input = .ok fields :=
      collect_fields_ok input fields fsp hdata hnamed
    have herr : map_field_types fields false = .error (.analysis ⟨g.span, ownedDataMsg⟩) := by
      rw [map_field_types]
      exact mfl_err fields [] g hnamed hg
    simp [collect_field_info, hcf, herr]
  · refine ⟨(fields.map entryOf).reverse ++ [], ?_⟩
    rw [map_field_types]
    exact mfl_ok fields [] true hnamed (fun f hf => Or.inr rfl)

/-- Witness for C1 (amended): the struct `{ y: &'a String }`. -/
theorem C1_witness :
    (∃ g, [refLifetimeField].find? (fun f => (typeSignature f.ty).data.contains '&') = some g ∧
      collect_field_info refLifetimeInput false = .error (.analysis ⟨g.span, ownedDataMsg⟩)) ∧
    (∃ m, map_field_types [refLifetimeField] true = .ok m) :=
  C1_reference_ownership_amended refLifetimeInput [refLifetimeField] ⟨4⟩ rfl
    (by decide) ⟨refLifetimeField, List.mem_cons_self _ _, rfl⟩

/-- Counterexample to C2 as stated: the struct `{ y: &'a String }` has all
fields named and carries no annotations, yet `collect_field_info` under
`allow_refs = false` returns an ownership error and no descriptors. -/
theorem C2_counterexample :
    (∀ f ∈ [refLifetimeField], f.ident.isSome = true ∧ f.attrs = []) ∧
    collect_field_info refLifetimeInput false =
      .error (.analysis ⟨⟨5⟩, ownedDataMsg⟩) := by
  constructor
  · decide
  · rfl

/-- C2 (amended): for every struct whose fields are all named (with pairwise
distinct names, as in any legal struct declaration) and carry no annotations,
provided the ownership check passes (references allowed, or no field's
signature contains the reference marker), `collect_field_info` returns
exactly one descriptor per field, in declaration order, each carrying the
field's name, its resolved type signature, and empty validation-rule and
modifier lists. -/
theorem C2_descriptor_per_field_amended (input : DeriveInput) (fields : List Field)
    (fsp : Span) (allow_refs : Bool)
    (hdata : input.data = .dataStruct fields fsp)
    (hnamed : ∀ f ∈ fields, f.ident.isSome = true)
    (hnodup : (fields.map (fun f => f.ident.getD "")).Nodup)
    (hattrs : ∀ f ∈ fields, f.attrs = [])
    (hpass : ∀ f ∈ fields,
      (typeSignature f.ty).data.contains '&' = false ∨ allow_refs = true) :
    collect_field_info input allow_refs = .ok (fields.map infoOf) := by
  have hcf : collect_fields input = .ok fields :=
    collect_fields_ok input fields fsp hdata hnamed
  have hmt : map_field_types fields allow_refs = .ok ((fields.map entryOf).reverse ++ []) := by
    rw [map_field_types]
    exact mfl_ok fields [] allow_refs hnamed hpass
  have hkeys : ((((fields.map entryOf).reverse ++ [])).map Prod.fst).Nodup := by
    simp only [List.append_nil, List.map_reverse, List.nodup_reverse]
    have hmm : (fields.map entryOf).map Prod.fst = fields.map (fun f => f.ident.getD "") := by
      rw [List.map_map]
      rfl
    rw [hmm]
    exact hnodup
  have hlk : ∀ f ∈ fields,
      ((fields.map entryOf).reverse ++ []).lookup (f.ident.getD "") =
        some (typeSignature f.ty) := by
    intro f hf
    apply lookup_eq_of_mem_of_nodup _ hkeys
    simp only [List.append_nil, List.mem_reverse]
    exact List.mem_map.mpr ⟨f, hf, rfl⟩
  rw [collect_field_info]
  simp only [hcf, hmt]
  exact cfi_loop_empty_attrs hnamed hattrs hlk

/-- Witness for C2 (amended): the annotation-free struct
`{ a: String, b: Vec<u8> }` under `allow_refs = false`. -/
theorem C2_witness :
    collect_field_info plainInput false = .ok ([plainFieldA, plainFieldB].map infoOf) :=
  C2_descriptor_per_field_amended plainInput [plainFieldA, plainFieldB] ⟨17⟩ false rfl
    (by decide) (by decide) (by decide) (by decide)

/-- C6: the pipeline is fail-fast and atomic — every run either returns an
error and no descriptor list at all, or returns a full list with exactly one
descriptor per declared field, in declaration order. -/
theorem C6_fail_fast_atomic (input : DeriveInput) (allow_refs : Bool) :
    (∃ e, collect_field_info input allow_refs = .error e) ∨
    (∃ fields fsp infos, input.data = .dataStruct fields fsp ∧
      collect_field_info input allow_refs = .ok infos ∧
      infos.map FieldInformation.field = fields) := by
  rcases hres : collect_field_info input allow_refs with e | infos
  · exact Or.inl ⟨e, rfl⟩
  · right
    rw [collect_field_info] at hres
    rcases hcf : collect_fields input with e | fields
    · simp only [hcf] at hres
      exact Except.noConfusion hres
    · simp only [hcf] at hres
      rcases collect_fields_ok_inv hcf with ⟨hnamed, fsp, hdata⟩
      rcases hmt : map_field_types fields allow_refs with e | field_types
      · simp only [hmt] at hres
        exact Except.noConfusion hres
      · simp only [hmt] at hres
        exact ⟨fields, fsp, infos, hdata, rfl, cfi_loop_fields hres⟩

/-- C7: type-signature computation is whitespace-insensitive and idempotent:
two type expressions that differ only in spacing yield identical signature
strings, and a computed signature contains no whitespace at all, so
recomputing the normalization on a signature's own text returns it
unchanged. -/
theorem C7_spacing_insensitive_idempotent (t₁ t₂ : Ty)
    (h : TySpacing t₁ t₂) (hw : t₁.wsOnly = true) :
    typeSignature t₁ = typeSignature t₂ ∧
    (∀ c ∈ (typeSignature t₁).data, c.isWhitespace = false) ∧
    stripSpaces (typeSignature t₁) = typeSignature t₁ :=
  ⟨tySpacing_signature h, signature_no_ws hw,
   stripSpaces_of_no_space (signature_no_ws hw)⟩

/-- Witness for C7: `Vec < String >` and `Vec<String>` as two spacings of the
same token sequence. -/
theorem C7_witness :
    typeSignature (Ty.path (renderWith ["Vec", "<", "String", ">"] [1, 1, 1, 0])) =
      typeSignature (Ty.path (renderWith ["Vec", "<", "String", ">"] [0, 0, 0, 0])) ∧
    (∀ c ∈ (typeSignature
        (Ty.path (renderWith ["Vec", "<", "String", ">"] [1, 1, 1, 0]))).data,
      c.isWhitespace = false) ∧
    stripSpaces (typeSignature
        (Ty.path (renderWith ["Vec", "<", "String", ">"] [1, 1, 1, 0]))) =
      typeSignature (Ty.path (renderWith ["Vec", "<", "String", ">"] [1, 1, 1, 0])) :=
  C7_spacing_insensitive_idempotent _ _
    (TySpacing.path ["Vec", "<", "String", ">"] [1, 1, 1, 0] [0, 0, 0, 0]) (by decide)

/-- C8: a field carrying exactly one phone rule annotation with an explicit
code override yields a single ValidationRule whose code is exactly the
override string; with no override, the code is the kind's default,
`"phone"`. -/
theorem C8_code_override (field_type : String) (sp : Span) (msg : Option String)
    (params : List (String × String)) (c : String) :
    collect_validations field_type [⟨"phone", some c, msg, params, sp⟩] =
      .ok [⟨.phone, c, msg, params⟩] ∧
    collect_validations field_type [⟨"phone", none, msg, params, sp⟩] =
      .ok [⟨.phone, "phone", msg, params⟩] := by
  constructor <;> rfl

/-- C9: under `allow_refs = false` the ownership rejection is exactly the
substring test on the computed signature: the resolver errors precisely when
some field's space-stripped signature contains the marker character,
independent of whether the field's declared type is structurally a
reference. -/
theorem C9_substring_rejection (fields : List Field)
    (hnamed : ∀ f ∈ fields, f.ident.isSome = true) :
    (∃ e, map_field_types fields false = .error e) ↔
      ∃ f ∈ fields, (typeSignature f.ty).data.contains '&' = true := by
  constructor
  · rintro ⟨e, he⟩
    rw [map_field_types] at he
    rcases mfl_error_shape hnamed he with ⟨_, f, hf, _, hc⟩
    exact ⟨f, hf, hc⟩
  · rintro ⟨f, hf, hc⟩
    rcases hfind : fields.find? (fun f => (typeSignature f.ty).data.contains '&')
        with _ | g
    · rw [List.find?_eq_none] at hfind
      exact absurd hc (by simpa using hfind f hf)
    · refine ⟨.analysis ⟨g.span, ownedDataMsg⟩, ?_⟩
      rw [map_field_types]
      exact mfl_err fields [] g hnamed hfind

/-- Witness for C9: the bare function-pointer field `cb: fn(&str)` is not
structurally a reference, yet its fallback serialization contains the marker,
so the struct `{ val: String, cb: fn(&str) }` is rejected. -/
theorem C9_witness :
    fnPtrField.ty.isReference = false ∧
    (∃ e, map_field_types [ownedField, fnPtrField] false = .error e) :=
  ⟨rfl, (C9_substring_rejection [ownedField, fnPtrField] (by decide)).mpr
    ⟨fnPtrField, by decide, by decide⟩⟩

/-- C10: for every input the walker accepts, the batch-computed type mapping
contains an entry for every field's name, so none of the `expect`/`unwrap`
lookups can fail: the whole pipeline never ends in a panic — every failure it
can produce is an analysis error. -/
theorem C10_no_panics (input : DeriveInput) (allow_refs : Bool) (fields : List Field)
    (h : collect_fields input = .ok fields) :
    (∀ m, map_field_types fields allow_refs = .ok m →
      ∀ f ∈ fields, ∃ n w, f.ident = some n ∧ m.lookup n = some w) ∧
    (∀ msg, collect_field_info input allow_refs ≠ .error (.panicked msg)) := by
  have hnamed : ∀ f ∈ fields, f.ident.isSome = true := (collect_fields_ok_inv h).1
  constructor
  · intro m hm f hf
    rw [map_field_types] at hm
    rcases Option.isSome_iff_exists.mp (hnamed f hf) with ⟨n, hn⟩
    rcases (mfl_preserves hm).2 f hf n hn with ⟨w, hw⟩
    exact ⟨n, w, hn, hw⟩
  · intro msg hcontra
    rw [collect_field_info] at hcontra
    simp only [h] at hcontra
    rcases hmt : map_field_types fields allow_refs with e | field_types
    · simp only [hmt] at hcontra
      cases hcontra
      rw [map_field_types] at hmt
      rcases mfl_error_shape hnamed hmt with ⟨_, f, hf, he, _⟩
      exact Failure.noConfusion he
    · simp only [hmt] at hcontra
      have hlk : ∀ f ∈ fields, ∀ n, f.ident = some n →
          ∃ w, field_types.lookup n = some w := by
        intro f hf n hn
        rw [map_field_types] at hmt
        exact (mfl_preserves hmt).2 f hf n hn
      exact cfi_loop_no_panic hnamed hlk hcontra

/-- Witness for C10: the accepted struct `{ a: String, b: Vec<u8> }`. -/
theorem C10_witness :
    (∀ m, map_field_types [plainFieldA, plainFieldB] false = .ok m →
      ∀ f ∈ [plainFieldA, plainFieldB], ∃ n w, f.ident = some n ∧ m.lookup n = some w) ∧
    (∀ msg, collect_field_info plainInput false ≠ .error (.panicked msg)) :=
  C10_no_panics plainInput false [plainFieldA, plainFieldB] rfl

end Modificate
